import Mathlib

/-!
Verification development for the portfolio-v2 repository.

The development shallowly embeds the pieces of the TypeScript source that the
verified properties are about:

* the markdown-like blog renderer `renderContent` of
  `src/app/blog/[slug]/page.tsx` (lines are `List Char`, JSX elements become
  the inductive `Element`),
* the near-duplicate renderer of `src/unnamed/part_001`,
* the static blog data and its helper functions in `src/lib/blog-data.ts`
  (the in-place `Array.prototype.sort` of `getAllPosts` is modelled by
  explicit state passing on a `BlogStore`),
* the page component and metadata generator of `src/app/blog/[slug]/page.tsx`,
* the JSON-LD structured-data builders of `src/lib/structured-data.ts` over
  the configuration of `seo-config.ts`.

JavaScript strings are modelled as `List Char` (for the renderer) or `String`
(for the data layer); `String.prototype.trim`, `split`, `replace`,
`startsWith` and the two global lazy regex replaces of the paragraph branch
are each given a dedicated executable definition mirroring the ECMAScript
semantics on the inputs that occur here.
-/

namespace Portfolio

/-- Backtick character (code 96), written via `Char.ofNat`. -/
def backtick : Char := Char.ofNat 96

/-- Double-quote character (code 34). -/
def dquote : Char := Char.ofNat 34

/-- Apostrophe character (code 39). -/
def squote : Char := Char.ofNat 39

/-- Model of `String.prototype.startsWith`: prefix test on character
lists. -/
def isPref : List Char → List Char → Bool
  | [], _ => true
  | _ :: _, [] => false
  | p :: ps, x :: xs => p == x && isPref ps xs

/-- The code-fence marker written with three backticks. -/
def fenceMark : List Char := [backtick, backtick, backtick]

/-- The `h1` heading marker. -/
def h1Mark : List Char := ['#', ' ']

/-- The `h2` heading marker. -/
def h2Mark : List Char := ['#', '#', ' ']

/-- The `h3` heading marker. -/
def h3Mark : List Char := ['#', '#', '#', ' ']

/-- The horizontal-rule marker. -/
def hrMark : List Char := ['-', '-', '-']

/-- Whitespace predicate used to model `String.prototype.trim`
(space, tab, newline, carriage return, vertical tab, form feed). -/
def isWs (c : Char) : Bool :=
  c = ' ' || c = '\t' || c = '\n' || c = '\r' || c = Char.ofNat 11 || c = Char.ofNat 12

/-- Model of `String.prototype.trim`: drop whitespace from both ends. -/
def jsTrim (l : List Char) : List Char :=
  ((l.dropWhile isWs).reverse.dropWhile isWs).reverse

/-- Model of `content.split('\n')`: split into lines at newline characters.
As in JavaScript, the empty string yields one empty line. -/
def splitNl : List Char → List (List Char)
  | [] => [[]]
  | c :: rest =>
    if c = '\n' then [] :: splitNl rest
    else
      match splitNl rest with
      | [] => [[c]]
      | l :: ls => (c :: l) :: ls

/-- Model of the global single-character `String.prototype.replace` used by
`escapeHtml`: every occurrence of `c` is replaced by the string `r`. -/
def replaceAllChar (c : Char) (r : List Char) : List Char → List Char
  | [] => []
  | x :: xs => if x = c then r ++ replaceAllChar c r xs else x :: replaceAllChar c r xs

/-- The `escapeHtml` helper of `renderContent`
(`src/app/blog/[slug]/page.tsx` lines 75-82): replaces ampersand first,
then the angle brackets, the double quote and the apostrophe by their
HTML entities. -/
def escapeHtml (l : List Char) : List Char :=
  replaceAllChar squote "&#039;".data
    (replaceAllChar dquote "&quot;".data
      (replaceAllChar '>' "&gt;".data
        (replaceAllChar '<' "&lt;".data
          (replaceAllChar '&' "&amp;".data l))))

/-- Model of the single-string `String.prototype.replace(pat, rep)`:
only the first occurrence of `pat` is replaced (used with a pattern that is
a verified prefix of the line, so the leading marker is removed). -/
def replaceFirst (pat rep : List Char) : List Char → List Char
  | [] => []
  | x :: xs =>
    if isPref pat (x :: xs) then rep ++ List.drop pat.length (x :: xs)
    else x :: replaceFirst pat rep xs

/-- Scan for the first backtick in a list: `some (a, b)` means the input is
`a ++ [backtick] ++ b` with no backtick in `a`. -/
def findTick : List Char → Option (List Char × List Char)
  | [] => none
  | c :: rest =>
    if c = backtick then some ([], rest)
    else
      match findTick rest with
      | some (a, b) => some (c :: a, b)
      | none => none

/-- Scan for the first two consecutive stars: `some (a, b)` means the input
is `a ++ '*' :: '*' :: b` and no earlier pair of adjacent stars occurs. -/
def findStars : List Char → Option (List Char × List Char)
  | [] => none
  | [_] => none
  | c1 :: c2 :: rest =>
    if c1 = '*' && c2 = '*' then some ([], rest)
    else
      match findStars (c2 :: rest) with
      | some (a, b) => some (c1 :: a, b)
      | none => none

/-- The replacement text inserted for an opening bold marker. -/
def strongOpen : List Char := "<strong>".data

/-- The replacement text inserted for a closing bold marker. -/
def strongClose : List Char := "</strong>".data

/-- The replacement text inserted for an opening inline-code marker
(the fixed class attribute comes from the source). -/
def codeOpen : List Char := "<code class=\"bg-muted px-1.5 py-0.5 rounded text-sm\">".data

/-- The replacement text inserted for a closing inline-code marker. -/
def codeClose : List Char := "</code>".data

/-- Lemma used for termination: a successful `findStars` returns a strictly
shorter remainder. -/
theorem findStars_eq : ∀ {l a b}, findStars l = some (a, b) → l = a ++ '*' :: '*' :: b := by
  intro l
  induction l with
  | nil => intro a b h; simp [findStars] at h
  | cons c1 rest ih =>
    intro a b h
    match rest with
    | [] => simp [findStars] at h
    | c2 :: rest2 =>
      rw [findStars] at h
      by_cases hcc : c1 = '*' && c2 = '*'
      · rw [if_pos hcc] at h
        cases h
        simp at hcc
        simp [hcc.1, hcc.2]
      · rw [if_neg hcc] at h
        cases hfs : findStars (c2 :: rest2) with
        | none => rw [hfs] at h; cases h
        | some ab =>
          rw [hfs] at h
          cases ab with
          | mk a0 b0 =>
            simp at h
            have := ih (a := a0) (b := b0) hfs
            rw [← h.1, ← h.2]
            simp [this]

/-- Remainder bound extracted from `findStars_eq`. -/
theorem findStars_length {l a b : List Char} (h : findStars l = some (a, b)) :
    b.length < l.length := by
  have := findStars_eq h
  subst this
  simp
  omega

/-- Specification of `findTick`. -/
theorem findTick_eq : ∀ {l a b}, findTick l = some (a, b) → l = a ++ backtick :: b := by
  intro l
  induction l with
  | nil => intro a b h; simp [findTick] at h
  | cons c rest ih =>
    intro a b h
    rw [findTick] at h
    by_cases hc : c = backtick
    · rw [if_pos hc] at h
      cases h
      simp [hc]
    · rw [if_neg hc] at h
      cases hft : findTick rest with
      | none => rw [hft] at h; cases h
      | some ab =>
        rw [hft] at h
        cases ab with
        | mk a0 b0 =>
          simp at h
          have := ih (a := a0) (b := b0) hft
          rw [← h.1, ← h.2]
          simp [this]

/-- Remainder bound extracted from `findTick_eq`. -/
theorem findTick_length {l a b : List Char} (h : findTick l = some (a, b)) :
    b.length < l.length := by
  have := findTick_eq h
  subst this
  simp
  omega

/-- Model of the global lazy regex replace
`safeLine.replace(/\*\*(.+?)\*\*/g, ...)`: scanning left to right, each
match consumes an opening pair of stars, a shortest nonempty content and a
closing pair of stars, and is replaced by the strong tags around the
content; a position with no match is copied and scanning advances one
character, exactly as the ECMAScript regex engine does. The `fuel`
argument makes the recursion structural; it is always instantiated with
the length of the input (see `boldRepl`), and since every recursive call
strictly shortens the list it is never exhausted. -/
def boldReplGo : Nat → List Char → List Char
  | _, [] => []
  | 0, l => l
  | fuel + 1, c :: rest =>
    if c = '*' then
      match rest with
      | c2 :: r0 :: rest3 =>
        if c2 = '*' then
          match findStars rest3 with
          | some (a, b) => strongOpen ++ (r0 :: a) ++ strongClose ++ boldReplGo fuel b
          | none => c :: boldReplGo fuel (c2 :: r0 :: rest3)
        else c :: boldReplGo fuel (c2 :: r0 :: rest3)
      | [c2] => c :: boldReplGo fuel [c2]
      | [] => [c]
    else c :: boldReplGo fuel rest

/-- The bold regex replace on a whole line. -/
def boldRepl (l : List Char) : List Char := boldReplGo l.length l

/-- Model of the global lazy regex replace on backticks: each match consumes
an opening backtick, a shortest nonempty content and a closing backtick and
is replaced by the code tags around the content. Fuel as in
`boldReplGo`. -/
def codeReplGo : Nat → List Char → List Char
  | _, [] => []
  | 0, l => l
  | fuel + 1, c :: rest =>
    if c = backtick then
      match rest with
      | r0 :: rest2 =>
        match findTick rest2 with
        | some (a, b) => codeOpen ++ (r0 :: a) ++ codeClose ++ codeReplGo fuel b
        | none => c :: codeReplGo fuel (r0 :: rest2)
      | [] => [c]
    else c :: codeReplGo fuel rest

/-- The inline-code regex replace on a whole line. -/
def codeRepl (l : List Char) : List Char := codeReplGo l.length l

/-- Paragraph processing of `renderContent` in `src/app/blog/[slug]/page.tsx`
(lines 136-147): escape first, then re-insert bold and inline-code tags. -/
def procPara (line : List Char) : List Char := codeRepl (boldRepl (escapeHtml line))

/-- Paragraph processing of `renderContent` in `src/unnamed/part_001`
(lines 119-121): the same two regex replaces, with no escaping step. -/
def procPara2 (line : List Char) : List Char := codeRepl (boldRepl line)

/-- Output elements emitted by the renderers; each constructor corresponds
to one kind of JSX element pushed onto `elements`, carrying the text or
HTML payload that the source computes for it. -/
inductive Element where
  | codeBlock (language : List Char) (body : List Char)
  | h1 (text : List Char)
  | h2 (text : List Char)
  | h3 (text : List Char)
  | separator
  | paragraph (html : List Char)
deriving DecidableEq, Repr

/-- The mutable locals of the renderers' line loop. -/
structure RCState where
  elements : List Element
  currentCodeBlock : List (List Char)
  inCodeBlock : Bool
  codeLanguage : List Char
deriving DecidableEq, Repr

/-- Join accumulated code lines with newlines, as
`currentCodeBlock.join('\n')` does. -/
def joinNl (ls : List (List Char)) : List Char := List.intercalate ['\n'] ls

/-- One iteration of the `lines.forEach` loop of `renderContent` in
`src/app/blog/[slug]/page.tsx` (lines 84-157), acting on the loop state. -/
def stepLine (st : RCState) (line : List Char) : RCState :=
  if isPref fenceMark line then
    if !st.inCodeBlock then
      { st with inCodeBlock := true,
                codeLanguage := jsTrim (replaceFirst fenceMark [] line) }
    else
      { elements := st.elements ++
          [Element.codeBlock st.codeLanguage (joinNl st.currentCodeBlock)],
        currentCodeBlock := [], inCodeBlock := false, codeLanguage := [] }
  else if st.inCodeBlock then
    { st with currentCodeBlock := st.currentCodeBlock ++ [line] }
  else if isPref h1Mark line then
    { st with elements := st.elements ++
        [Element.h1 (escapeHtml (replaceFirst h1Mark [] line))] }
  else if isPref h2Mark line then
    { st with elements := st.elements ++
        [Element.h2 (escapeHtml (replaceFirst h2Mark [] line))] }
  else if isPref h3Mark line then
    { st with elements := st.elements ++
        [Element.h3 (escapeHtml (replaceFirst h3Mark [] line))] }
  else if isPref hrMark line then
    { st with elements := st.elements ++ [Element.separator] }
  else if jsTrim line = [] then
    st
  else
    { st with elements := st.elements ++ [Element.paragraph (procPara line)] }

/-- Initial loop state: no elements, empty code accumulator, fence closed. -/
def rcInit : RCState := ⟨[], [], false, []⟩

/-- The renderer of `src/app/blog/[slug]/page.tsx` (lines 67-171): trim the
content, split into lines, run the loop, then flush a pending nonempty code
block if the input ended inside an open fence (lines 159-168). -/
def renderContent (content : List Char) : List Element :=
  let st := (splitNl (jsTrim content)).foldl stepLine rcInit
  if st.inCodeBlock && !st.currentCodeBlock.isEmpty then
    st.elements ++ [Element.codeBlock st.codeLanguage (joinNl st.currentCodeBlock)]
  else
    st.elements

/-- One iteration of the `lines.forEach` loop of `renderContent` in
`src/unnamed/part_001` (lines 74-131): identical branch structure, but the
fence language is not trimmed, headings are not escaped, and paragraphs are
not escaped before the tag substitution. -/
def stepLine2 (st : RCState) (line : List Char) : RCState :=
  if isPref fenceMark line then
    if !st.inCodeBlock then
      { st with inCodeBlock := true,
                codeLanguage := replaceFirst fenceMark [] line }
    else
      { elements := st.elements ++
          [Element.codeBlock st.codeLanguage (joinNl st.currentCodeBlock)],
        currentCodeBlock := [], inCodeBlock := false, codeLanguage := [] }
  else if st.inCodeBlock then
    { st with currentCodeBlock := st.currentCodeBlock ++ [line] }
  else if isPref h1Mark line then
    { st with elements := st.elements ++
        [Element.h1 (replaceFirst h1Mark [] line)] }
  else if isPref h2Mark line then
    { st with elements := st.elements ++
        [Element.h2 (replaceFirst h2Mark [] line)] }
  else if isPref h3Mark line then
    { st with elements := st.elements ++
        [Element.h3 (replaceFirst h3Mark [] line)] }
  else if isPref hrMark line then
    { st with elements := st.elements ++ [Element.separator] }
  else if jsTrim line = [] then
    st
  else
    { st with elements := st.elements ++ [Element.paragraph (procPara2 line)] }

/-- The renderer of `src/unnamed/part_001` (lines 67-134): as `renderContent`
but with `stepLine2` and with no flush of a pending unclosed code block. -/
def renderContent2 (content : List Char) : List Element :=
  ((splitNl (jsTrim content)).foldl stepLine2 rcInit).elements

/-- The `BlogPost` record of `src/lib/blog-data.ts`. The `content` field
(the long markdown body of each post) is omitted: no verified property
depends on the value of a post body, and every other field is carried
verbatim. -/
structure BlogPost where
  slug : String
  title : String
  description : String
  author : String
  date : String
  readTime : String
  tags : List String
  image : Option String
  keywords : List String
deriving DecidableEq, Repr

/-- The static `blogPosts` array of `src/lib/blog-data.ts`, in source order. -/
def blogPosts : List BlogPost := [
  { slug := "building-modern-portfolio-website-nextjs",
    title := "Building a Modern Portfolio Website with Next.js - Debmalya Biswas",
    description := "Learn how Debmalya Biswas built a high-performance portfolio website using Next.js, React, and modern frontend technologies. A complete guide for frontend developers.",
    author := "Debmalya Biswas",
    date := "2024-12-01",
    readTime := "8 min read",
    tags := ["Next.js", "React", "Portfolio", "Frontend Development"],
    image := some "/assets/blog/modern-portfolio.svg",
    keywords := ["Debmalya Biswas", "Debmalya Biswas portfolio", "Debmalya Biswas frontend", "portfolio website", "Next.js portfolio"] },
  { slug := "mastering-react-hooks-frontend-development",
    title := "Mastering React Hooks: Advanced Patterns for Frontend Developers",
    description := "Debmalya Biswas shares advanced React Hooks patterns and best practices for building scalable frontend applications. Essential reading for React developers.",
    author := "Debmalya Biswas",
    date := "2024-11-28",
    readTime := "10 min read",
    tags := ["React", "Hooks", "JavaScript", "Frontend"],
    image := some "/assets/blog/react-hooks.svg",
    keywords := ["Debmalya Biswas", "Debmalya frontend", "React hooks", "frontend development", "Debmalya SDE"] },
  { slug := "nextjs-14-app-router-complete-guide",
    title := "Next.js 14 App Router: Complete Guide by Debmalya Biswas",
    description := "Comprehensive guide to Next.js 14 App Router by frontend developer Debmalya Biswas. Learn server components, routing, and advanced patterns.",
    author := "Debmalya Biswas",
    date := "2024-11-25",
    readTime := "12 min read",
    tags := ["Next.js", "React", "App Router", "Server Components"],
    image := some "/assets/blog/nextjs-router.svg",
    keywords := ["Debmalya Biswas", "Next.js tutorial", "Debmalya frontend", "Debmalya Biswas website"] },
  { slug := "typescript-best-practices-react-developers",
    title := "TypeScript Best Practices for React Developers - Debmalya Biswas",
    description := "Learn TypeScript best practices for React from Debmalya Biswas, frontend developer. Essential patterns for type-safe React applications.",
    author := "Debmalya Biswas",
    date := "2024-11-22",
    readTime := "9 min read",
    tags := ["TypeScript", "React", "JavaScript", "Best Practices"],
    image := some "/assets/blog/typescript-best-practices.svg",
    keywords := ["Debmalya Biswas", "TypeScript React", "Debmalya frontend", "Debmalya SDE"] },
  { slug := "web-performance-optimization-guide",
    title := "Web Performance Optimization: A Frontend Developer's Guide",
    description := "Debmalya Biswas shares comprehensive web performance optimization techniques for frontend developers. Learn to build lightning-fast websites.",
    author := "Debmalya Biswas",
    date := "2024-11-20",
    readTime := "11 min read",
    tags := ["Performance", "Web Development", "Frontend", "Optimization"],
    image := some "/assets/blog/web-performance.svg",
    keywords := ["Debmalya Biswas", "web performance", "Debmalya frontend", "Debmalya Biswas portfolio"] },
  { slug := "frontend-development-career-guide-2024",
    title := "Frontend Development Career Guide 2024 - Debmalya Biswas",
    description := "Complete career guide for aspiring frontend developers by Debmalya Biswas. Learn the skills, tools, and strategies to become a successful frontend SDE.",
    author := "Debmalya Biswas",
    date := "2024-11-18",
    readTime := "10 min read",
    tags := ["Career", "Frontend Development", "Learning", "Guide"],
    image := some "/assets/blog/career-guide.svg",
    keywords := ["Debmalya Biswas", "frontend developer", "Debmalya SDE", "frontend career", "Debmalya Biswas portfolio"] },
  { slug := "react-performance-optimization-techniques",
    title := "React Performance Optimization Techniques by Debmalya Biswas",
    description := "Master React performance optimization with Debmalya Biswas. Learn advanced techniques to build lightning-fast React applications.",
    author := "Debmalya Biswas",
    date := "2024-11-15",
    readTime := "10 min read",
    tags := ["React", "Performance", "Optimization", "Frontend"],
    image := some "/assets/blog/react-performance.svg",
    keywords := ["Debmalya Biswas", "React performance", "Debmalya frontend", "Debmalya SDE"] }
]

/-- Numeric key of an ISO `YYYY-MM-DD` date string, read off its digits.
It models `new Date(s).getTime()` up to a strictly increasing
transformation: for the ISO date-only strings stored in `blogPosts`,
`getTime` compares two dates exactly as these keys compare. -/
def dateKey (s : String) : Nat :=
  s.data.foldl (fun n c => if c.isDigit then n * 10 + (c.toNat - 48) else n) 0

/-- The module state of `src/lib/blog-data.ts`: the `blogPosts` array, which
`getAllPosts` sorts in place. Each helper is modelled as a function from the
store to the new store paired with its return value. -/
structure BlogStore where
  posts : List BlogPost
deriving DecidableEq

/-- The store as of module initialization. -/
def initialStore : BlogStore := ⟨blogPosts⟩

/-- Stable insertion of `x` after every already-placed element `y` with
`le y x`; building block of the executable stable-sort model. -/
def insertStable (le : α → α → Bool) (x : α) : List α → List α
  | [] => [x]
  | y :: ys => if le y x then y :: insertStable le x ys else x :: y :: ys

/-- Executable model of the stable comparison sort that
`Array.prototype.sort` performs (ECMAScript requires sort stability):
insertion sort with elements inserted in original order, so elements the
comparator ties keep their relative order. -/
def jsSortBy (le : α → α → Bool) (l : List α) : List α :=
  l.foldl (fun acc x => insertStable le x acc) []

/-- Model of `getAllPosts` (`src/lib/blog-data.ts` lines 2150-2154):
`blogPosts.sort((a, b) => new Date(b.date).getTime() - new Date(a.date).getTime())`.
`Array.prototype.sort` sorts the array in place (stably, descending by date
under this comparator) and returns the same array, so the new store holds
the sorted list. -/
def getAllPostsS (st : BlogStore) : BlogStore × List BlogPost :=
  let sorted := jsSortBy (fun a b => decide (dateKey b.date ≤ dateKey a.date)) st.posts
  (⟨sorted⟩, sorted)

/-- Model of `getPostBySlug` (`src/lib/blog-data.ts` lines 2156-2158):
`blogPosts.find(post => post.slug === slug)`. -/
def getPostBySlugS (st : BlogStore) (slug : String) : BlogStore × Option BlogPost :=
  (st, st.posts.find? (fun p => p.slug == slug))

/-- ASCII model of `String.prototype.toLowerCase` on a character: letters
`A`-`Z` are shifted to `a`-`z` and every other character is unchanged (all
strings in this repository are ASCII). -/
def jsLowerChar (c : Char) : Char :=
  if 65 ≤ c.toNat ∧ c.toNat ≤ 90 then Char.ofNat (c.toNat + 32) else c

/-- ASCII model of `String.prototype.toLowerCase`. -/
def jsToLower (s : String) : String := ⟨s.data.map jsLowerChar⟩

/-- Model of `getPostsByTag` (`src/lib/blog-data.ts` lines 2160-2164):
`blogPosts.filter(post => post.tags.some(t => t.toLowerCase() === tag.toLowerCase()))`. -/
def getPostsByTagS (st : BlogStore) (tag : String) : BlogStore × List BlogPost :=
  (st, st.posts.filter (fun p => p.tags.any (fun t => jsToLower t == jsToLower tag)))

/-- Set-insertion with first-occurrence order, modelling `Set.add`. -/
def insertUniq (l : List String) (s : String) : List String :=
  if s ∈ l then l else l ++ [s]

/-- Model of `getAllTags` (`src/lib/blog-data.ts` lines 2166-2172): collect
the tags of every post into a `Set` (first-occurrence order) and sort the
result with the default lexicographic string order. -/
def getAllTagsS (st : BlogStore) : BlogStore × List String :=
  (st, jsSortBy (fun a b => decide (a ≤ b))
        (st.posts.foldl (fun acc p => p.tags.foldl insertUniq acc) []))

/-- Result of `getPostBySlug` at the initial store, as the page uses it. -/
def getPostBySlug (slug : String) : Option BlogPost :=
  (getPostBySlugS initialStore slug).2

/-- Rendering outcome of the `BlogPostPage` component
(`src/app/blog/[slug]/page.tsx` lines 57-63): either the `notFound()` page,
or the article page for the found post (the article's JSX body is abstracted
to the post it is rendered from). -/
inductive PageResult where
  | notFoundPage
  | article (post : BlogPost)
deriving DecidableEq, Repr

/-- The branch logic of `BlogPostPage`: look the slug up and either invoke
`notFound()` or render the article for the post. -/
def blogPostPage (slug : String) : PageResult :=
  match getPostBySlug slug with
  | none => PageResult.notFoundPage
  | some post => PageResult.article post

/-- The `openGraph` block of the metadata returned by `generateMetadata`.
The reserved word `type` is rendered as `ogType`. -/
structure OpenGraphMeta where
  title : String
  description : String
  ogType : String
  publishedTime : String
  authors : List String
  images : List String
deriving DecidableEq, Repr

/-- The `twitter` block of the metadata returned by `generateMetadata`. -/
structure TwitterMeta where
  card : String
  title : String
  description : String
  images : List String
deriving DecidableEq, Repr

/-- The metadata object returned by `generateMetadata`; absent fields of the
fallback object are `none`. -/
structure Metadata where
  title : String
  description : Option String := none
  keywords : Option (List String) := none
  authors : Option (List String) := none
  openGraph : Option OpenGraphMeta := none
  twitter : Option TwitterMeta := none
deriving DecidableEq, Repr

/-- Model of `generateMetadata` (`src/app/blog/[slug]/page.tsx` lines
25-55): the fallback object carries only the title `"Post Not Found"`;
otherwise the post's fields are spread into the metadata. -/
def generateMetadata (slug : String) : Metadata :=
  match getPostBySlug slug with
  | none => { title := "Post Not Found" }
  | some post =>
    { title := post.title,
      description := some post.description,
      keywords := some post.keywords,
      authors := some [post.author],
      openGraph := some
        { title := post.title, description := post.description,
          ogType := "article", publishedTime := post.date,
          authors := [post.author],
          images := match post.image with | some i => [i] | none => [] },
      twitter := some
        { card := "summary_large_image", title := post.title,
          description := post.description,
          images := match post.image with | some i => [i] | none => [] } }

/-- JSON values, covering the shapes produced by the structured-data
builders of `src/lib/structured-data.ts`: strings, (natural) numbers,
arrays and objects with ordered fields. -/
inductive Json where
  | str (s : String)
  | num (n : Nat)
  | arr (xs : List Json)
  | obj (fields : List (String × Json))

/-- Characters of the `JSON.stringify` escaping of one character: the double
quote, the backslash and the common control characters are escaped; every
other character appearing in this repository's data is emitted verbatim. -/
def jsonEscapeChar (c : Char) : List Char :=
  if c = dquote then ['\\', dquote]
  else if c = '\\' then ['\\', '\\']
  else if c = '\n' then ['\\', 'n']
  else if c = '\r' then ['\\', 'r']
  else if c = '\t' then ['\\', 't']
  else [c]

/-- String-body escaping of `JSON.stringify`. -/
def jsonEscape (s : String) : String :=
  ⟨s.data.foldr (fun c acc => jsonEscapeChar c ++ acc) []⟩

/-- Model of `JSON.stringify`: strings are quoted and escaped, arrays and
objects are emitted with comma separators and object fields in insertion
order, with no added whitespace. -/
def jsonStr : Json → String
  | Json.str s => "\"" ++ jsonEscape s ++ "\""
  | Json.num n => toString n
  | Json.arr xs =>
    "[" ++ String.intercalate "," (xs.attach.map (fun x => jsonStr x.1)) ++ "]"
  | Json.obj fs =>
    "\x7b" ++ String.intercalate ","
      (fs.attach.map (fun f => "\"" ++ jsonEscape f.1.1 ++ "\":" ++ jsonStr f.1.2)) ++ "\x7d"
decreasing_by
  · have := List.sizeOf_lt_of_mem x.2
    simp at this ⊢
    omega
  · have := List.sizeOf_lt_of_mem f.2
    simp at this ⊢
    cases hf : f.1 with
    | mk k v => rw [hf] at this; simp at this ⊢; omega

/-- Field lookup in a JSON object (first field with the given key). -/
def getField : Json → String → Option Json
  | Json.obj fs, k => fs.lookup k
  | _, _ => none

/-- The fields of `siteConfig` in `seo-config.ts` that the structured-data
builders read (the SEO keyword list and verification tokens are not used by
`src/lib/structured-data.ts` and are omitted); the three entries of `links`
are carried in insertion order, matching `Object.values(siteConfig.links)`. -/
structure SiteConfig where
  name : String
  title : String
  description : String
  shortDescription : String
  url : String
  ogImage : String
  email : String
  phone : String
  location : String
  linksGithub : String
  linksLinkedin : String
  linksTwitter : String
  jobTitle : String
  company : String
  companyUrl : String
  yearsOfExperience : String
  skills : List String
deriving DecidableEq, Repr

/-- The `siteConfig` literal of `seo-config.ts`. -/
def siteConfig : SiteConfig :=
  { name := "Debmalya Biswas",
    title := "Debmalya Biswas | Frontend & Full Stack Engineer",
    description := "Frontend & Full Stack Engineer specializing in React, Next.js, and TypeScript. Building performant, beautiful web experiences at SaffronStays. View my portfolio, projects, and get in touch.",
    shortDescription := "Frontend & Full Stack Engineer crafting performant web experiences with React, Next.js & TypeScript.",
    url := "https://www.debmalya.in/",
    ogImage := "/og-image.png",
    email := "viperbale.db@gmail.com",
    phone := "+91-XXXXXXXXXX",
    location := "India",
    linksGithub := "https://github.com/debmalya",
    linksLinkedin := "https://linkedin.com/in/debmalya",
    linksTwitter := "https://twitter.com/debmalya",
    jobTitle := "SDE-1",
    company := "SaffronStays",
    companyUrl := "https://saffronsstays.com",
    yearsOfExperience := "2+",
    skills := ["React", "Next.js", "TypeScript", "JavaScript", "Node.js", "Tailwind CSS", "PostgreSQL", "MongoDB", "GraphQL", "Docker", "AWS", "Performance Optimization", "Frontend Architecture", "Full Stack Development", "Web Development", "UI/UX Engineering"] }

/-- One entry of `projectsData` in `seo-config.ts`. -/
structure Project where
  name : String
  description : String
  url : String
  image : String
  technologies : List String
  datePublished : String
deriving DecidableEq, Repr

/-- The `projectsData` literal of `seo-config.ts`, in source order. -/
def projectsData : List Project := [
  { name := "Coinhub",
    description := "A React based Web App where you can see the live price of various cryptos and also the previous trend of the price of that specific Crypto built using ReactJs, ChakraUI, CoinGecko API, and FramerMotion.",
    url := "https://coinhub-db.vercel.app/",
    image := "/real-time-analytics-dashboard-charts-graphs.jpg",
    technologies := ["React", "ChakraUI", "CoinGecko API", "FramerMotion"],
    datePublished := "2023-01-01" },
  { name := "theEngineerGuy",
    description := "A Blogging Website where you can post your own blog, edit and delete and view other user's blog. A custom Dashboard(CMS) has been made for all the users. Built using NextJs, TypeScript, MongoDB for database, Next-Auth for authentication with Custom Credentials Provider and Google Auth.",
    url := "https://theengineerguy.vercel.app/",
    image := "/ai-content-generation-interface.jpg",
    technologies := ["Next.js", "TypeScript", "MongoDB", "Next-Auth", "SCSS", "REST API"],
    datePublished := "2023-06-01" },
  { name := "Apna Dukan",
    description := "A full-stack e-commerce web application made using the MERN Stack. Features include User Registration and Authentication, Filters, Functional Search Bar, Cart, Wishlist, Payment Gateway(RazorPay), User Dashboard, Admin Dashboard, Protected Routes.",
    url := "https://apnadukan.vercel.app/",
    image := "/ecommerce-store-product-catalog.jpg",
    technologies := ["React", "MongoDB", "Node.js", "Express", "RazorPay"],
    datePublished := "2023-09-01" }
]

/-- One entry of `faqData` in `seo-config.ts`. -/
structure FaqEntry where
  question : String
  answer : String
deriving DecidableEq, Repr

/-- The `faqData` literal of `seo-config.ts`, in source order. -/
def faqData : List FaqEntry := [
  { question := "What technologies does Debmalya Biswas specialize in?",
    answer := "Debmalya specializes in React, Next.js, TypeScript, Node.js, and modern frontend technologies. He has extensive experience with performance optimization, frontend architecture, and full-stack development." },
  { question := "Is Debmalya available for freelance projects?",
    answer := "Yes, Debmalya is currently open for freelance projects and full-time opportunities. You can reach out through the contact form on this website." },
  { question := "What kind of projects has Debmalya worked on?",
    answer := "Debmalya has worked on diverse projects including property management platforms, real-time analytics dashboards, component libraries, e-commerce platforms, and AI-powered applications." },
  { question := "Where is Debmalya Biswas currently working?",
    answer := "Debmalya currently works as an SDE-1 at SaffronStays, where he focuses on full-stack development, API migrations, and performance optimization." }
]

/-- The `personSchema` object of `src/lib/structured-data.ts` (lines 5-37). -/
def personSchema : Json := Json.obj [
  ("@context", Json.str "https://schema.org"),
  ("@type", Json.str "Person"),
  ("@id", Json.str (siteConfig.url ++ "/#person")),
  ("name", Json.str siteConfig.name),
  ("givenName", Json.str "Debmalya"),
  ("familyName", Json.str "Biswas"),
  ("url", Json.str siteConfig.url),
  ("image", Json.obj [
    ("@type", Json.str "ImageObject"),
    ("url", Json.str (siteConfig.url ++ "/og-image.png")),
    ("width", Json.num 1200),
    ("height", Json.num 630)]),
  ("email", Json.str ("mailto:" ++ siteConfig.email)),
  ("jobTitle", Json.str siteConfig.jobTitle),
  ("description", Json.str siteConfig.description),
  ("sameAs", Json.arr [Json.str siteConfig.linksGithub,
    Json.str siteConfig.linksLinkedin, Json.str siteConfig.linksTwitter]),
  ("worksFor", Json.obj [
    ("@type", Json.str "Organization"),
    ("name", Json.str siteConfig.company),
    ("url", Json.str siteConfig.companyUrl)]),
  ("alumniOf", Json.obj [
    ("@type", Json.str "EducationalOrganization"),
    ("name", Json.str "University")]),
  ("knowsAbout", Json.arr (siteConfig.skills.map Json.str)),
  ("nationality", Json.obj [
    ("@type", Json.str "Country"),
    ("name", Json.str "India")])
]

/-- The `websiteSchema` object (lines 40-59); the brace-delimited template
placeholder of `urlTemplate` is spelled with escaped braces. -/
def websiteSchema : Json := Json.obj [
  ("@context", Json.str "https://schema.org"),
  ("@type", Json.str "WebSite"),
  ("@id", Json.str (siteConfig.url ++ "/#website")),
  ("url", Json.str siteConfig.url),
  ("name", Json.str siteConfig.title),
  ("description", Json.str siteConfig.description),
  ("publisher", Json.obj [("@id", Json.str (siteConfig.url ++ "/#person"))]),
  ("inLanguage", Json.str "en-US"),
  ("potentialAction", Json.obj [
    ("@type", Json.str "SearchAction"),
    ("target", Json.obj [
      ("@type", Json.str "EntryPoint"),
      ("urlTemplate", Json.str (siteConfig.url ++ "/?s=\x7bsearch_term_string\x7d"))]),
    ("query-input", Json.str "required name=search_term_string")])
]

/-- The `webPageSchema` object (lines 62-82); the dynamic
`new Date().toISOString().split("T")[0]` computed at module initialization
is the parameter `today`. -/
def webPageSchema (today : String) : Json := Json.obj [
  ("@context", Json.str "https://schema.org"),
  ("@type", Json.str "WebPage"),
  ("@id", Json.str (siteConfig.url ++ "/#webpage")),
  ("url", Json.str siteConfig.url),
  ("name", Json.str siteConfig.title),
  ("description", Json.str siteConfig.description),
  ("isPartOf", Json.obj [("@id", Json.str (siteConfig.url ++ "/#website"))]),
  ("about", Json.obj [("@id", Json.str (siteConfig.url ++ "/#person"))]),
  ("primaryImageOfPage", Json.obj [
    ("@type", Json.str "ImageObject"),
    ("url", Json.str (siteConfig.url ++ "/og-image.png"))]),
  ("datePublished", Json.str "2024-01-01"),
  ("dateModified", Json.str today),
  ("inLanguage", Json.str "en-US")
]

/-- The `profilePageSchema` object (lines 85-96), with the same `today`
parameter as `webPageSchema`. -/
def profilePageSchema (today : String) : Json := Json.obj [
  ("@context", Json.str "https://schema.org"),
  ("@type", Json.str "ProfilePage"),
  ("@id", Json.str (siteConfig.url ++ "/#profilepage")),
  ("url", Json.str siteConfig.url),
  ("name", Json.str (siteConfig.name ++ " - Portfolio")),
  ("mainEntity", Json.obj [("@id", Json.str (siteConfig.url ++ "/#person"))]),
  ("dateCreated", Json.str "2024-01-01"),
  ("dateModified", Json.str today)
]

/-- The `ListItem` entry built for the project at index `i` by the
`projectsData.map((project, index) => ...)` callback of
`projectsListSchema` (lines 106-121). -/
def projectEntry (i : Nat) (p : Project) : Json := Json.obj [
  ("@type", Json.str "ListItem"),
  ("position", Json.num (i + 1)),
  ("item", Json.obj [
    ("@type", Json.str "CreativeWork"),
    ("name", Json.str p.name),
    ("description", Json.str p.description),
    ("url", Json.str p.url),
    ("image", Json.str (siteConfig.url ++ p.image)),
    ("datePublished", Json.str p.datePublished),
    ("author", Json.obj [("@id", Json.str (siteConfig.url ++ "/#person"))]),
    ("keywords", Json.str (String.intercalate ", " p.technologies))])
]

/-- The mapped `itemListElement` list of `projectsListSchema`. -/
def projectEntries : List Json := projectsData.mapIdx projectEntry

/-- The `projectsListSchema` object (lines 99-122). -/
def projectsListSchema : Json := Json.obj [
  ("@context", Json.str "https://schema.org"),
  ("@type", Json.str "ItemList"),
  ("@id", Json.str (siteConfig.url ++ "/#projects")),
  ("name", Json.str "Featured Projects"),
  ("description", Json.str "Portfolio projects showcasing web development expertise"),
  ("numberOfItems", Json.num projectsData.length),
  ("itemListElement", Json.arr projectEntries)
]

/-- The `Question` entry built for one FAQ item by the `faqData.map`
callback of `faqSchema` (lines 129-136). -/
def faqEntryJson (f : FaqEntry) : Json := Json.obj [
  ("@type", Json.str "Question"),
  ("name", Json.str f.question),
  ("acceptedAnswer", Json.obj [
    ("@type", Json.str "Answer"),
    ("text", Json.str f.answer)])
]

/-- The mapped `mainEntity` list of `faqSchema`. -/
def faqEntries : List Json := faqData.map faqEntryJson

/-- The `faqSchema` object (lines 125-137). -/
def faqSchema : Json := Json.obj [
  ("@context", Json.str "https://schema.org"),
  ("@type", Json.str "FAQPage"),
  ("@id", Json.str (siteConfig.url ++ "/#faq")),
  ("mainEntity", Json.arr faqEntries)
]

/-- The `breadcrumbSchema` object (lines 140-151). -/
def breadcrumbSchema : Json := Json.obj [
  ("@context", Json.str "https://schema.org"),
  ("@type", Json.str "BreadcrumbList"),
  ("itemListElement", Json.arr [Json.obj [
    ("@type", Json.str "ListItem"),
    ("position", Json.num 1),
    ("name", Json.str "Home"),
    ("item", Json.str siteConfig.url)]])
]

/-- The `serviceSchema` object (lines 166-214). -/
def serviceSchema : Json := Json.obj [
  ("@context", Json.str "https://schema.org"),
  ("@type", Json.str "Service"),
  ("@id", Json.str (siteConfig.url ++ "/#service")),
  ("name", Json.str "Web Development Services"),
  ("description", Json.str "Professional frontend and full-stack web development services specializing in React, Next.js, and TypeScript."),
  ("provider", Json.obj [("@id", Json.str (siteConfig.url ++ "/#person"))]),
  ("serviceType", Json.str "Web Development"),
  ("areaServed", Json.obj [
    ("@type", Json.str "Country"),
    ("name", Json.str "Worldwide")]),
  ("hasOfferCatalog", Json.obj [
    ("@type", Json.str "OfferCatalog"),
    ("name", Json.str "Web Development Services"),
    ("itemListElement", Json.arr [
      Json.obj [("@type", Json.str "Offer"), ("itemOffered", Json.obj [
        ("@type", Json.str "Service"),
        ("name", Json.str "Frontend Development"),
        ("description", Json.str "Modern, responsive frontend development using React and Next.js")])],
      Json.obj [("@type", Json.str "Offer"), ("itemOffered", Json.obj [
        ("@type", Json.str "Service"),
        ("name", Json.str "Full Stack Development"),
        ("description", Json.str "End-to-end web application development with Node.js backend")])],
      Json.obj [("@type", Json.str "Offer"), ("itemOffered", Json.obj [
        ("@type", Json.str "Service"),
        ("name", Json.str "Performance Optimization"),
        ("description", Json.str "Web performance audits and optimization for better user experience")])]])])
]

/-- The `combinedSchema` list (lines 217-226): the eight schemas of the main
page in source order (the unused `organizationSchema` is not included, as in
the source). -/
def combinedSchema (today : String) : List Json :=
  [personSchema, websiteSchema, webPageSchema today, profilePageSchema today,
   projectsListSchema, faqSchema, breadcrumbSchema, serviceSchema]

/-- The `generateSchemaScript` helper (lines 229-231):
`JSON.stringify(combinedSchema)`. Its value is fixed once the module-level
schemas are initialized, so within a process every call returns the same
string; the initialization date is the explicit parameter `today`. -/
def generateSchemaScript (today : String) : String :=
  jsonStr (Json.arr (combinedSchema today))

/-! Theorems. -/

set_option maxRecDepth 8192 in
/-- C6: the static content array is never mutated at runtime: each of the
four helpers of `src/lib/blog-data.ts`, run on the initial store, leaves the
`blogPosts` array unchanged (same elements in the same order), so a call to
one helper does not change what a later call to another helper observes.
For `getAllPosts` this holds because the in-place sort reorders an array
that is already in strictly descending date order. -/
theorem c6_store_never_mutated :
    (getAllPostsS initialStore).1 = initialStore ∧
    (∀ s : String, (getPostBySlugS initialStore s).1 = initialStore) ∧
    (∀ t : String, (getPostsByTagS initialStore t).1 = initialStore) ∧
    (getAllTagsS initialStore).1 = initialStore := by
  refine ⟨?_, fun s => rfl, fun t => rfl, rfl⟩
  decide

set_option maxRecDepth 8192 in
/-- C9: `getAllPosts` returns a permutation of `blogPosts` in which every
adjacent pair of posts is ordered by non-increasing date key (newest
first). -/
theorem c9_getAllPosts_sorted_descending :
    (getAllPostsS initialStore).2.Perm blogPosts ∧
    List.Chain' (fun a b => dateKey b.date ≤ dateKey a.date)
      (getAllPostsS initialStore).2 := by
  have h : (getAllPostsS initialStore).2 = blogPosts := by decide
  refine ⟨h ▸ List.Perm.refl _, ?_⟩
  rw [h, blogPosts]
  simp only [List.chain'_cons, List.chain'_singleton, and_true]
  refine ⟨?_, ?_, ?_, ?_, ?_, ?_⟩ <;> decide

/-- C3: a slug matching no element of `blogPosts` makes `getPostBySlug`
return `undefined` (`none`), makes `BlogPostPage` invoke `notFound()`, and
makes `generateMetadata` return the fallback metadata titled
`"Post Not Found"`; a slug matching some element makes `getPostBySlug`
return that element and the page render the article for it. -/
theorem c3_slug_lookup_and_not_found :
    (∀ slug : String, (∀ p ∈ blogPosts, p.slug ≠ slug) →
      getPostBySlug slug = none ∧
      blogPostPage slug = PageResult.notFoundPage ∧
      generateMetadata slug = { title := "Post Not Found" }) ∧
    (∀ slug : String, ∀ p ∈ blogPosts, p.slug = slug →
      getPostBySlug slug = some p ∧
      blogPostPage slug = PageResult.article p) := by
  constructor
  · intro slug hnone
    have hfind : blogPosts.find? (fun p => p.slug == slug) = none := by
      rw [List.find?_eq_none]
      intro p hp
      simpa using hnone p hp
    have hg : getPostBySlug slug = none := by
      simp [getPostBySlug, getPostBySlugS, initialStore, hfind]
    refine ⟨hg, ?_, ?_⟩
    · simp [blogPostPage, hg]
    · simp [generateMetadata, hg]
  · intro slug p hp hslug
    have hnd : (blogPosts.map BlogPost.slug).Nodup := by decide
    have hsome : (blogPosts.find? (fun q => q.slug == slug)).isSome := by
      rw [List.find?_isSome]
      exact ⟨p, hp, by simp [hslug]⟩
    obtain ⟨q, hq⟩ := Option.isSome_iff_exists.mp hsome
    have hqmem := List.mem_of_find?_eq_some hq
    have hqslug : q.slug = slug := by simpa using List.find?_some hq
    have hqp : q = p :=
      List.inj_on_of_nodup_map hnd hqmem hp (by rw [hqslug, hslug])
    have hg : getPostBySlug slug = some p := by
      simp [getPostBySlug, getPostBySlugS, initialStore, hq, hqp]
    exact ⟨hg, by simp [blogPostPage, hg]⟩

/-- Witness for C3: the concrete slug `"no-such-post"` matches no post and
yields the not-found behaviour, and the slug of the first post is found and
rendered as an article for exactly that post. -/
theorem c3_slug_lookup_and_not_found_witness :
    getPostBySlug "no-such-post" = none ∧
    blogPostPage "no-such-post" = PageResult.notFoundPage ∧
    generateMetadata "no-such-post" = { title := "Post Not Found" } ∧
    blogPostPage "building-modern-portfolio-website-nextjs" =
      PageResult.article
        { slug := "building-modern-portfolio-website-nextjs",
          title := "Building a Modern Portfolio Website with Next.js - Debmalya Biswas",
          description := "Learn how Debmalya Biswas built a high-performance portfolio website using Next.js, React, and modern frontend technologies. A complete guide for frontend developers.",
          author := "Debmalya Biswas",
          date := "2024-12-01",
          readTime := "8 min read",
          tags := ["Next.js", "React", "Portfolio", "Frontend Development"],
          image := some "/assets/blog/modern-portfolio.svg",
          keywords := ["Debmalya Biswas", "Debmalya Biswas portfolio", "Debmalya Biswas frontend", "portfolio website", "Next.js portfolio"] } := by
  have h1 := c3_slug_lookup_and_not_found.1 "no-such-post" (by decide)
  have h2 := c3_slug_lookup_and_not_found.2 "building-modern-portfolio-website-nextjs"
    _ (List.mem_cons_self _ _) rfl
  exact ⟨h1.1, h1.2.1, h1.2.2, h2.2⟩

/-- Idempotence of the ASCII lowercasing on characters. -/
theorem jsLowerChar_idem (c : Char) : jsLowerChar (jsLowerChar c) = jsLowerChar c := by
  by_cases h : 65 ≤ c.toNat ∧ c.toNat ≤ 90
  · have h1 : jsLowerChar c = Char.ofNat (c.toNat + 32) := by
      rw [jsLowerChar, if_pos h]
    have hv : (c.toNat + 32).isValidChar := Or.inl (by omega)
    have ht : (Char.ofNat (c.toNat + 32)).toNat = c.toNat + 32 := by
      rw [Char.ofNat, dif_pos hv]
      rfl
    have h2 : ¬(65 ≤ (jsLowerChar c).toNat ∧ (jsLowerChar c).toNat ≤ 90) := by
      rw [h1, ht]
      omega
    rw [jsLowerChar, if_neg h2]
  · have h2 : jsLowerChar c = c := by rw [jsLowerChar, if_neg h]
    rw [h2]
    exact h2

/-- Idempotence of the ASCII model of `toLowerCase`. -/
theorem jsToLower_idem (s : String) : jsToLower (jsToLower s) = jsToLower s := by
  have hmap : ∀ l : List Char,
      List.map jsLowerChar (List.map jsLowerChar l) = List.map jsLowerChar l := by
    intro l
    induction l with
    | nil => rfl
    | cons c cs ih => simp [jsLowerChar_idem, ih]
  show (⟨List.map jsLowerChar (List.map jsLowerChar s.data)⟩ : String) = _
  rw [hmap]
  rfl

/-- C10: `getPostsByTag` matches case-insensitively: its result is a
sublist of `blogPosts` (original order), a post is in the result exactly
when one of its tags lowercases to the lowercase of the query, and querying
with the lowercased tag returns the same list. -/
theorem c10_getPostsByTag_case_insensitive :
    ∀ t : String,
      (getPostsByTagS initialStore t).2.Sublist blogPosts ∧
      (∀ p, p ∈ (getPostsByTagS initialStore t).2 ↔
        p ∈ blogPosts ∧ ∃ s ∈ p.tags, jsToLower s = jsToLower t) ∧
      (getPostsByTagS initialStore t).2 =
        (getPostsByTagS initialStore (jsToLower t)).2 := by
  intro t
  refine ⟨List.filter_sublist _, ?_, ?_⟩
  · intro p
    simp [getPostsByTagS, initialStore, List.mem_filter, List.any_eq_true]
  · simp only [getPostsByTagS, initialStore, jsToLower_idem]

/-- C8: when the content ends inside an open code fence, the pending
accumulated lines are still emitted as one final code block; when the open
fence has accumulated no lines, no trailing element is emitted. -/
theorem c8_pending_code_block_flushed (content : List Char) :
    (((splitNl (jsTrim content)).foldl stepLine rcInit).inCodeBlock = true →
      ((splitNl (jsTrim content)).foldl stepLine rcInit).currentCodeBlock ≠ [] →
      renderContent content =
        ((splitNl (jsTrim content)).foldl stepLine rcInit).elements ++
          [Element.codeBlock
            ((splitNl (jsTrim content)).foldl stepLine rcInit).codeLanguage
            (joinNl ((splitNl (jsTrim content)).foldl stepLine rcInit).currentCodeBlock)]) ∧
    (((splitNl (jsTrim content)).foldl stepLine rcInit).currentCodeBlock = [] →
      renderContent content =
        ((splitNl (jsTrim content)).foldl stepLine rcInit).elements) := by
  constructor
  · intro h1 h2
    rw [renderContent]
    rw [if_pos]
    rw [h1]
    simp [List.isEmpty_iff, h2]
  · intro h2
    rw [renderContent]
    rw [if_neg]
    simp [h2]

/-- Witness for C8: the content `"` ++ "``" ++ ``js\nx"` ends inside an open
fence holding one line and yields exactly one flushed code block, while
`"` ++ "``" ++ ``js"` ends inside an open fence holding no lines and yields
no element. -/
theorem c8_pending_code_block_flushed_witness :
    renderContent "```js\nx".data =
      ((splitNl (jsTrim "```js\nx".data)).foldl stepLine rcInit).elements ++
        [Element.codeBlock
          ((splitNl (jsTrim "```js\nx".data)).foldl stepLine rcInit).codeLanguage
          (joinNl ((splitNl (jsTrim "```js\nx".data)).foldl stepLine rcInit).currentCodeBlock)] ∧
    renderContent "```js".data =
      ((splitNl (jsTrim "```js".data)).foldl stepLine rcInit).elements := by
  constructor
  · exact (c8_pending_code_block_flushed "```js\nx".data).1 (by decide) (by decide)
  · exact (c8_pending_code_block_flushed "```js".data).2 (by decide)

/-- Correspondence between `isPref` and `List.IsPrefix`. -/
theorem isPref_iff : ∀ {p l : List Char}, isPref p l = true ↔ p <+: l := by
  intro p
  induction p with
  | nil =>
    intro l
    simp [isPref]
  | cons a ps ih =>
    intro l
    cases l with
    | nil => simp [isPref]
    | cons b bs =>
      rw [isPref, Bool.and_eq_true, beq_iff_eq, List.cons_prefix_cons, ih]

/-- Removing a marker that is a verified prefix of the line: the first
occurrence of the pattern is the leading one. -/
theorem replaceFirst_of_pref {pat rep l : List Char} (hp : pat ≠ [])
    (h : isPref pat l = true) :
    replaceFirst pat rep l = rep ++ l.drop pat.length := by
  cases l with
  | nil =>
    cases pat with
    | nil => exact absurd rfl hp
    | cons p ps => simp [isPref] at h
  | cons x xs => rw [replaceFirst, if_pos h]

/-- A line whose trim is empty consists of whitespace characters only. -/
theorem wsAll_of_jsTrim_nil {l : List Char} (h : jsTrim l = []) :
    ∀ c ∈ l, isWs c = true := by
  intro c hc
  rw [jsTrim, List.reverse_eq_nil_iff, List.dropWhile_eq_nil_iff] at h
  have hws : ∀ x ∈ l.dropWhile isWs, isWs x = true := by
    intro x hx
    exact h x (by simpa using hx)
  rcases List.mem_append.mp
      ((List.takeWhile_append_dropWhile (p := isWs) (l := l)) ▸ hc) with h1 | h2
  · exact List.mem_takeWhile_imp h1
  · exact hws c h2

/-- A pattern whose head is not whitespace is no prefix of an
all-whitespace line. -/
theorem notPref_of_jsTrim_nil {l : List Char} (h : jsTrim l = [])
    (c : Char) (ps : List Char) (hc : isWs c = false) :
    isPref (c :: ps) l = false := by
  cases hb : isPref (c :: ps) l with
  | false => rfl
  | true =>
    exfalso
    obtain ⟨t, ht⟩ := isPref_iff.mp hb
    have hmem : c ∈ l := ht ▸ List.mem_append_left t (List.mem_cons_self c ps)
    rw [wsAll_of_jsTrim_nil h c hmem] at hc
    cases hc

/-- C4: classification of a line outside a code fence, following the branch
order of the source: a fence marker opens the fence and records the trimmed
language; the three heading markers emit one heading with the marker
removed and the remainder escaped; a `---` line emits one separator; a line
with empty trim emits nothing; every other line emits exactly one
paragraph. The renderer applies this per line of the trimmed, split
content. -/
theorem c4_line_classification (st : RCState) (line : List Char)
    (hin : st.inCodeBlock = false) :
    (isPref fenceMark line = true →
      stepLine st line =
        { st with inCodeBlock := true, codeLanguage := jsTrim (line.drop 3) }) ∧
    (isPref h1Mark line = true →
      stepLine st line =
        { st with elements := st.elements ++ [Element.h1 (escapeHtml (line.drop 2))] }) ∧
    (isPref h2Mark line = true →
      stepLine st line =
        { st with elements := st.elements ++ [Element.h2 (escapeHtml (line.drop 3))] }) ∧
    (isPref h3Mark line = true →
      stepLine st line =
        { st with elements := st.elements ++ [Element.h3 (escapeHtml (line.drop 4))] }) ∧
    (isPref hrMark line = true →
      stepLine st line = { st with elements := st.elements ++ [Element.separator] }) ∧
    (jsTrim line = [] → stepLine st line = st) ∧
    (isPref fenceMark line = false → isPref h1Mark line = false →
      isPref h2Mark line = false → isPref h3Mark line = false →
      isPref hrMark line = false → jsTrim line ≠ [] →
      stepLine st line =
        { st with elements := st.elements ++ [Element.paragraph (procPara line)] }) := by
  obtain ⟨els, cb, icb, lang⟩ := st
  simp only [RCState.mk.injEq] at hin ⊢
  subst hin
  refine ⟨?_, ?_, ?_, ?_, ?_, ?_, ?_⟩
  · intro h
    obtain ⟨t, rfl⟩ := isPref_iff.mp h
    rfl
  · intro h
    obtain ⟨t, rfl⟩ := isPref_iff.mp h
    rfl
  · intro h
    obtain ⟨t, rfl⟩ := isPref_iff.mp h
    rfl
  · intro h
    obtain ⟨t, rfl⟩ := isPref_iff.mp h
    rfl
  · intro h
    obtain ⟨t, rfl⟩ := isPref_iff.mp h
    rfl
  · intro htr
    have h1 := notPref_of_jsTrim_nil htr backtick [backtick, backtick] (by decide)
    have h2 := notPref_of_jsTrim_nil htr '#' [' '] (by decide)
    have h3 := notPref_of_jsTrim_nil htr '#' ['#', ' '] (by decide)
    have h4 := notPref_of_jsTrim_nil htr '#' ['#', '#', ' '] (by decide)
    have h5 := notPref_of_jsTrim_nil htr '-' ['-', '-'] (by decide)
    simp [stepLine, fenceMark, h1Mark, h2Mark, h3Mark, hrMark, h1, h2, h3, h4, h5, htr]
  · intro h1 h2 h3 h4 h5 htr
    simp [stepLine, h1, h2, h3, h4, h5, htr]

/-- Witness for C4: each branch evaluated on a concrete line at the initial
state. -/
theorem c4_line_classification_witness :
    stepLine rcInit "```ts ".data =
      { rcInit with inCodeBlock := true, codeLanguage := jsTrim ("```ts ".data.drop 3) } ∧
    stepLine rcInit "# A".data =
      { rcInit with elements := rcInit.elements ++ [Element.h1 (escapeHtml ("# A".data.drop 2))] } ∧
    stepLine rcInit "## B".data =
      { rcInit with elements := rcInit.elements ++ [Element.h2 (escapeHtml ("## B".data.drop 3))] } ∧
    stepLine rcInit "### C".data =
      { rcInit with elements := rcInit.elements ++ [Element.h3 (escapeHtml ("### C".data.drop 4))] } ∧
    stepLine rcInit "---".data =
      { rcInit with elements := rcInit.elements ++ [Element.separator] } ∧
    stepLine rcInit "  ".data = rcInit ∧
    stepLine rcInit "hello".data =
      { rcInit with elements := rcInit.elements ++ [Element.paragraph (procPara "hello".data)] } := by
  have h := c4_line_classification rcInit
  exact ⟨(h _ rfl).1 (by decide), (h _ rfl).2.1 (by decide), (h _ rfl).2.2.1 (by decide),
    (h _ rfl).2.2.2.1 (by decide), (h _ rfl).2.2.2.2.1 (by decide),
    (h _ rfl).2.2.2.2.2.1 (by decide),
    (h _ rfl).2.2.2.2.2.2 (by decide) (by decide) (by decide) (by decide) (by decide)
      (by decide)⟩

/-- Inside an open fence, a line that does not start with a fence marker is
accumulated verbatim and nothing else changes. -/
theorem stepLine_in_fence (st : RCState) (line : List Char)
    (hin : st.inCodeBlock = true) (hf : isPref fenceMark line = false) :
    stepLine st line = { st with currentCodeBlock := st.currentCodeBlock ++ [line] } := by
  obtain ⟨els, cb, icb, lang⟩ := st
  simp only [RCState.mk.injEq] at hin
  subst hin
  simp [stepLine, hf]

/-- Inside an open fence, a fence-marker line closes the fence, emitting one
code block whose body is the accumulated lines joined by newlines. -/
theorem stepLine_close_fence (st : RCState) (line : List Char)
    (hin : st.inCodeBlock = true) (hf : isPref fenceMark line = true) :
    stepLine st line =
      { elements := st.elements ++
          [Element.codeBlock st.codeLanguage (joinNl st.currentCodeBlock)],
        currentCodeBlock := [], inCodeBlock := false, codeLanguage := [] } := by
  obtain ⟨els, cb, icb, lang⟩ := st
  simp only [RCState.mk.injEq] at hin
  subst hin
  obtain ⟨t, rfl⟩ := isPref_iff.mp hf
  rfl

/-- Accumulation invariant: folding fence-free lines from an open fence
appends them, in order and verbatim, to the accumulator. -/
theorem foldl_in_fence :
    ∀ (bs : List (List Char)) (st : RCState), st.inCodeBlock = true →
      (∀ b ∈ bs, isPref fenceMark b = false) →
      List.foldl stepLine st bs =
        { st with currentCodeBlock := st.currentCodeBlock ++ bs } := by
  intro bs
  induction bs with
  | nil =>
    intro st hin hb
    simp
  | cons b bs ih =>
    intro st hin hb
    rw [List.foldl_cons, stepLine_in_fence st b hin (hb b (List.mem_cons_self b bs))]
    rw [ih { st with currentCodeBlock := st.currentCodeBlock ++ [b] } hin
      (fun x hx => hb x (List.mem_cons_of_mem b hx))]
    simp

/-- C5: the code-fence state machine invariant. Starting outside a fence
with an empty accumulator, processing an opening fence line, then any lines
none of which starts with a fence marker (however they would otherwise be
classified), then a closing fence line, appends exactly one code block: its
language is the trimmed text following the opening marker and its body is
the intermediate lines, verbatim and unescaped, joined with newlines. -/
theorem c5_fence_invariant (st : RCState) (op : List Char)
    (bs : List (List Char)) (cl : List Char)
    (hin : st.inCodeBlock = false) (hcb : st.currentCodeBlock = [])
    (hop : isPref fenceMark op = true)
    (hbs : ∀ b ∈ bs, isPref fenceMark b = false)
    (hcl : isPref fenceMark cl = true) :
    List.foldl stepLine st (op :: bs ++ [cl]) =
      { elements := st.elements ++
          [Element.codeBlock (jsTrim (op.drop 3)) (joinNl bs)],
        currentCodeBlock := [], inCodeBlock := false, codeLanguage := [] } := by
  rw [List.foldl_append]
  rw [List.foldl_cons (l := bs)]
  rw [(c4_line_classification st op hin).1 hop]
  rw [foldl_in_fence bs _ rfl hbs]
  rw [List.foldl_cons, List.foldl_nil]
  rw [stepLine_close_fence _ cl rfl hcl]
  simp [hcb]

/-- Witness for C5: a concrete fenced block, containing a heading-looking
line, a separator-looking line and an empty line, emitted verbatim as one
code block. -/
theorem c5_fence_invariant_witness :
    List.foldl stepLine rcInit ("``` py ".data :: ["# not a heading".data, "---".data, [], "x".data] ++ ["```".data]) =
      { elements := rcInit.elements ++
          [Element.codeBlock (jsTrim ("``` py ".data.drop 3))
            (joinNl ["# not a heading".data, "---".data, [], "x".data])],
        currentCodeBlock := [], inCodeBlock := false, codeLanguage := [] } :=
  c5_fence_invariant rcInit "``` py ".data
    ["# not a heading".data, "---".data, [], "x".data] "```".data
    rfl rfl (by decide) (by decide) (by decide)

/-- A global character replacement leaves a list without that character
unchanged. -/
theorem replaceAllChar_id {c : Char} {r l : List Char} (h : c ∉ l) :
    replaceAllChar c r l = l := by
  induction l with
  | nil => rfl
  | cons x xs ih =>
    rw [replaceAllChar, if_neg, ih (fun hx => h (List.mem_cons_of_mem x hx))]
    intro he
    exact h (he ▸ List.mem_cons_self x xs)

/-- Escaping is the identity on lines containing none of the five escaped
characters. -/
theorem escapeHtml_id {l : List Char}
    (h : ∀ ch ∈ l, ch ∉ ['&', '<', '>', dquote, squote]) :
    escapeHtml l = l := by
  have h1 : '&' ∉ l := fun hm => h '&' hm (by simp)
  have h2 : '<' ∉ l := fun hm => h '<' hm (by simp)
  have h3 : '>' ∉ l := fun hm => h '>' hm (by simp)
  have h4 : dquote ∉ l := fun hm => h dquote hm (by simp)
  have h5 : squote ∉ l := fun hm => h squote hm (by simp)
  rw [escapeHtml, replaceAllChar_id h1, replaceAllChar_id h2, replaceAllChar_id h3,
    replaceAllChar_id h4, replaceAllChar_id h5]

/-- On a line with no escapable characters whose fence language (if any) is
already trimmed, the two loop bodies agree on every state. -/
theorem stepLine_eq_stepLine2 (line : List Char)
    (hchars : ∀ ch ∈ line, ch ∉ ['&', '<', '>', dquote, squote])
    (hlang : isPref fenceMark line = true → jsTrim (line.drop 3) = line.drop 3)
    (st : RCState) : stepLine st line = stepLine2 st line := by
  have hsub : ∀ pat : List Char, pat ≠ [] → isPref pat line = true →
      escapeHtml (replaceFirst pat [] line) = replaceFirst pat [] line := by
    intro pat hne hpref
    apply escapeHtml_id
    intro ch hch
    apply hchars
    rw [replaceFirst_of_pref hne hpref] at hch
    simp at hch
    exact List.mem_of_mem_drop hch
  have hpp : procPara line = procPara2 line := by
    rw [procPara, procPara2, escapeHtml_id hchars]
  by_cases hf : isPref fenceMark line = true
  · have hrf : replaceFirst fenceMark [] line = line.drop 3 := by
      rw [replaceFirst_of_pref (by decide) hf]
      rfl
    cases hic : st.inCodeBlock with
    | true => simp [stepLine, stepLine2, hf, hic]
    | false => simp [stepLine, stepLine2, hf, hic, hrf, hlang hf]
  · cases hic : st.inCodeBlock with
    | true => simp [stepLine, stepLine2, hf, hic]
    | false =>
      by_cases hh1 : isPref h1Mark line = true
      · simp [stepLine, stepLine2, hf, hic, hh1, hsub h1Mark (by decide) hh1]
      · by_cases hh2 : isPref h2Mark line = true
        · simp [stepLine, stepLine2, hf, hic, hh1, hh2, hsub h2Mark (by decide) hh2]
        · by_cases hh3 : isPref h3Mark line = true
          · simp [stepLine, stepLine2, hf, hic, hh1, hh2, hh3,
              hsub h3Mark (by decide) hh3]
          · by_cases hhr : isPref hrMark line = true
            · simp [stepLine, stepLine2, hf, hic, hh1, hh2, hh3, hhr]
            · by_cases htr : jsTrim line = []
              · simp [stepLine, stepLine2, hf, hic, hh1, hh2, hh3, hhr, htr]
              · simp [stepLine, stepLine2, hf, hic, hh1, hh2, hh3, hhr, htr, hpp]

/-- Fold-level agreement of the two loop bodies. -/
theorem foldl_stepLine_eq_stepLine2 :
    ∀ (lines : List (List Char)),
      (∀ l ∈ lines, (∀ ch ∈ l, ch ∉ ['&', '<', '>', dquote, squote]) ∧
        (isPref fenceMark l = true → jsTrim (l.drop 3) = l.drop 3)) →
      ∀ st, List.foldl stepLine st lines = List.foldl stepLine2 st lines := by
  intro lines
  induction lines with
  | nil => intro _ st; rfl
  | cons a as ih =>
    intro h st
    rw [List.foldl_cons, List.foldl_cons,
      stepLine_eq_stepLine2 a (h a (List.mem_cons_self a as)).1
        (h a (List.mem_cons_self a as)).2 st]
    exact ih (fun l hl => h l (List.mem_cons_of_mem a hl)) _

/-- Counterexample to C2 as stated: on the one-character content `"<"` the
renderer of `src/app/blog/[slug]/page.tsx` emits the escaped paragraph
while the renderer of `src/unnamed/part_001` emits the raw character. -/
theorem c2_counterexample : renderContent ['<'] ≠ renderContent2 ['<'] := by decide

/-- C2 (amended): the two renderers agree on every content string whose
lines contain none of the five characters escaped by `escapeHtml`, whose
fence-opening lines carry an already-trimmed language text, and whose code
fences are all closed; in general they differ, because the `part_001` copy
skips HTML-escaping, does not trim the fence language, and drops an
unclosed trailing code block. -/
theorem c2_renderers_agree_amended (content : List Char)
    (hchars : ∀ l ∈ splitNl (jsTrim content),
      ∀ ch ∈ l, ch ∉ ['&', '<', '>', dquote, squote])
    (hlang : ∀ l ∈ splitNl (jsTrim content),
      isPref fenceMark l = true → jsTrim (l.drop 3) = l.drop 3)
    (hclosed : ((splitNl (jsTrim content)).foldl stepLine rcInit).inCodeBlock = false) :
    renderContent content = renderContent2 content := by
  have hfold : (splitNl (jsTrim content)).foldl stepLine rcInit =
      (splitNl (jsTrim content)).foldl stepLine2 rcInit :=
    foldl_stepLine_eq_stepLine2 _ (fun l hl => ⟨hchars l hl, hlang l hl⟩) _
  rw [renderContent, renderContent2, ← hfold]
  rw [if_neg]
  rw [hclosed]
  simp

/-- Witness for the amended C2: a concrete content with a heading, a
paragraph with bold text and a closed code fence, rendered identically by
both copies. -/
theorem c2_renderers_agree_amended_witness :
    renderContent "# Hi\n\nhello **world**\n```js\nlet x = 1\n```".data =
      renderContent2 "# Hi\n\nhello **world**\n```js\nlet x = 1\n```".data :=
  c2_renderers_agree_amended _ (by decide) (by decide) (by decide)

/-- C7: the structured-data builders are pure mappings of the configuration
data: `projectsListSchema` has `numberOfItems` equal to the length of
`projectsData` and one `itemListElement` entry per project in order, the
`i`-th carrying position `i + 1` and that project's name, description and
url; `faqSchema` has one `Question` per `faqData` entry in order, carrying
its question and answer; and `generateSchemaScript` returns the JSON
serialization of the fixed `combinedSchema` list (a pure function of the
initialization date, hence the same string on every call). -/
theorem c7_structured_data_builders :
    getField projectsListSchema "numberOfItems" = some (Json.num projectsData.length) ∧
    getField projectsListSchema "itemListElement" = some (Json.arr projectEntries) ∧
    projectEntries.length = projectsData.length ∧
    (∀ i, ∀ h : i < projectsData.length,
      projectEntries.get? i = some (projectEntry i (projectsData.get ⟨i, h⟩)) ∧
      getField (projectEntry i (projectsData.get ⟨i, h⟩)) "position" =
        some (Json.num (i + 1)) ∧
      (getField (projectEntry i (projectsData.get ⟨i, h⟩)) "item").bind
        (fun j => getField j "name") = some (Json.str (projectsData.get ⟨i, h⟩).name) ∧
      (getField (projectEntry i (projectsData.get ⟨i, h⟩)) "item").bind
        (fun j => getField j "description") =
          some (Json.str (projectsData.get ⟨i, h⟩).description) ∧
      (getField (projectEntry i (projectsData.get ⟨i, h⟩)) "item").bind
        (fun j => getField j "url") = some (Json.str (projectsData.get ⟨i, h⟩).url)) ∧
    getField faqSchema "mainEntity" = some (Json.arr faqEntries) ∧
    faqEntries.length = faqData.length ∧
    (∀ i, ∀ h : i < faqData.length,
      faqEntries.get? i = some (faqEntryJson (faqData.get ⟨i, h⟩)) ∧
      getField (faqEntryJson (faqData.get ⟨i, h⟩)) "name" =
        some (Json.str (faqData.get ⟨i, h⟩).question) ∧
      (getField (faqEntryJson (faqData.get ⟨i, h⟩)) "acceptedAnswer").bind
        (fun j => getField j "text") = some (Json.str (faqData.get ⟨i, h⟩).answer)) ∧
    (∀ today : String, generateSchemaScript today = jsonStr (Json.arr (combinedSchema today))) := by
  refine ⟨rfl, rfl, rfl, ?_, rfl, rfl, ?_, fun today => rfl⟩
  · intro i h
    have h3 : i < 3 := h
    interval_cases i
    · exact ⟨rfl, rfl, rfl, rfl, rfl⟩
    · exact ⟨rfl, rfl, rfl, rfl, rfl⟩
    · exact ⟨rfl, rfl, rfl, rfl, rfl⟩
  · intro i h
    have h4 : i < 4 := h
    interval_cases i
    · exact ⟨rfl, rfl, rfl⟩
    · exact ⟨rfl, rfl, rfl⟩
    · exact ⟨rfl, rfl, rfl⟩
    · exact ⟨rfl, rfl, rfl⟩

/-- Witness for C7: the first project entry carries position 1 and the name
`"Coinhub"`, and the first FAQ entry carries its question text. -/
theorem c7_structured_data_builders_witness :
    getField (projectEntry 0 (projectsData.get ⟨0, Nat.succ_pos 2⟩)) "position" =
      some (Json.num 1) ∧
    (getField (projectEntry 0 (projectsData.get ⟨0, Nat.succ_pos 2⟩)) "item").bind
      (fun j => getField j "name") = some (Json.str "Coinhub") ∧
    getField (faqEntryJson (faqData.get ⟨0, Nat.succ_pos 3⟩)) "name" =
      some (Json.str "What technologies does Debmalya Biswas specialize in?") := by
  have hp := c7_structured_data_builders.2.2.2.1 0 (Nat.succ_pos 2)
  have hf := c7_structured_data_builders.2.2.2.2.2.2.1 0 (Nat.succ_pos 3)
  exact ⟨hp.2.1, hp.2.2.1, hf.2.1⟩

/-- The four fixed tags that the paragraph pipeline may introduce. -/
def tagsList : List (List Char) := [strongOpen, strongClose, codeOpen, codeClose]

/-- Strings in which every occurrence of `<` starts one of the four fixed
tags, described generatively: such a string is built from characters other
than `<` and whole tags. -/
inductive TagStr : List Char → Prop where
  | nil : TagStr []
  | chr {c : Char} {l : List Char} : c ≠ '<' → TagStr l → TagStr (c :: l)
  | tag {t l : List Char} : t ∈ tagsList → TagStr l → TagStr (t ++ l)

/-- A string without `<` is trivially tag-structured. -/
theorem TagStr_of_noLt : ∀ {l : List Char}, (∀ ch ∈ l, ch ≠ '<') → TagStr l := by
  intro l
  induction l with
  | nil => intro _; exact TagStr.nil
  | cons c cs ih =>
    intro h
    exact TagStr.chr (h c (List.mem_cons_self c cs))
      (ih (fun ch hch => h ch (List.mem_cons_of_mem c hch)))

/-- Prepending `<`-free characters preserves tag structure. -/
theorem TagStr_append_left : ∀ {p : List Char}, (∀ ch ∈ p, ch ≠ '<') →
    ∀ {w : List Char}, TagStr w → TagStr (p ++ w) := by
  intro p
  induction p with
  | nil => intro _ w hw; exact hw
  | cons c cs ih =>
    intro h w hw
    exact TagStr.chr (h c (List.mem_cons_self c cs))
      (ih (fun ch hch => h ch (List.mem_cons_of_mem c hch)) hw)

/-- Splitting an append at an occurrence of a character absent from the
left factor: the occurrence lies in the right factor. -/
theorem split_of_notMem : ∀ (p : List Char) {l u v : List Char} {x : Char},
    p ++ l = u ++ x :: v → x ∉ p → ∃ w, u = p ++ w ∧ l = w ++ x :: v := by
  intro p
  induction p with
  | nil =>
    intro l u v x h _
    exact ⟨u, rfl, h⟩
  | cons a ps ih =>
    intro l u v x h hx
    cases u with
    | nil =>
      simp at h
      exact absurd (h.1 ▸ List.mem_cons_self a ps) hx
    | cons b u2 =>
      rw [List.cons_append, List.cons_append] at h
      injection h with hab htl
      obtain ⟨w, hw1, hw2⟩ := ih htl (fun hm => hx (List.mem_cons_of_mem a hm))
      refine ⟨w, ?_, hw2⟩
      rw [List.cons_append, ← hab, hw1]

/-- No tag contains a backtick. -/
theorem tags_no_tick : ∀ t ∈ tagsList, backtick ∉ t := by decide

/-- Splitting a tag-structured string at a backtick: the part before the
backtick extends any tag-structured continuation, and the part after it is
tag-structured (no tag contains a backtick, so the backtick cannot sit
inside a tag). -/
theorem TagStr_split_tick {m : List Char} (hm : TagStr m) :
    ∀ u v : List Char, m = u ++ backtick :: v →
      (∀ w, TagStr w → TagStr (u ++ w)) ∧ TagStr v := by
  induction hm with
  | nil =>
    intro u v h
    exact absurd h.symm (by simp)
  | chr hc hl ih =>
    intro u v h
    cases u with
    | nil =>
      simp at h
      exact ⟨fun w hw => hw, h.2 ▸ hl⟩
    | cons b u2 =>
      rw [List.cons_append] at h
      injection h with hb htl
      obtain ⟨ih1, ih2⟩ := ih u2 v htl
      refine ⟨fun w hw => ?_, ih2⟩
      rw [List.cons_append]
      exact TagStr.chr (hb ▸ hc) (ih1 w hw)
  | tag ht hl ih =>
    intro u v h
    obtain ⟨w, hw1, hw2⟩ := split_of_notMem _ h (tags_no_tick _ ht)
    obtain ⟨ih1, ih2⟩ := ih w v hw2
    refine ⟨fun w2 hw2 => ?_, ih2⟩
    rw [hw1, List.append_assoc]
    exact TagStr.tag ht (ih1 w2 hw2)

/-- Characters of the output of a global replacement come from the input or
from the replacement string. -/
theorem mem_replaceAllChar_sub {x c : Char} {r : List Char} :
    ∀ {l : List Char}, x ∈ replaceAllChar c r l → x ∈ l ∨ x ∈ r := by
  intro l
  induction l with
  | nil => intro h; simp [replaceAllChar] at h
  | cons y ys ih =>
    intro h
    rw [replaceAllChar] at h
    by_cases hy : y = c
    · rw [if_pos hy] at h
      rcases List.mem_append.mp h with h | h
      · exact Or.inr h
      · rcases ih h with h | h
        · exact Or.inl (List.mem_cons_of_mem y h)
        · exact Or.inr h
    · rw [if_neg hy] at h
      rcases List.mem_cons.mp h with h | h
      · exact Or.inl (h ▸ List.mem_cons_self y ys)
      · rcases ih h with h | h
        · exact Or.inl (List.mem_cons_of_mem y h)
        · exact Or.inr h

/-- Replacing every occurrence of `c` by a string avoiding `c` removes `c`
entirely. -/
theorem not_mem_replaceAllChar_self {c : Char} {r : List Char} (hr : c ∉ r) :
    ∀ l, c ∉ replaceAllChar c r l := by
  intro l
  induction l with
  | nil => simp [replaceAllChar]
  | cons y ys ih =>
    rw [replaceAllChar]
    by_cases hy : y = c
    · rw [if_pos hy]
      intro hm
      rcases List.mem_append.mp hm with h | h
      · exact hr h
      · exact ih h
    · rw [if_neg hy]
      intro hm
      rcases List.mem_cons.mp hm with h | h
      · exact hy h.symm
      · exact ih h

/-- The escaped line contains no `<`: the `<`-stage removes every `<` and
the later stages only introduce entity text. -/
theorem noLt_escapeHtml (l : List Char) : '<' ∉ escapeHtml l := by
  rw [escapeHtml]
  intro hm
  rcases mem_replaceAllChar_sub hm with hm | hm
  · rcases mem_replaceAllChar_sub hm with hm | hm
    · rcases mem_replaceAllChar_sub hm with hm | hm
      · exact not_mem_replaceAllChar_self (by decide) _ hm
      · exact absurd hm (by decide)
    · exact absurd hm (by decide)
  · exact absurd hm (by decide)

/-- The bold replacement of a `<`-free line is tag-structured: copied
characters are not `<` and the inserted strong tags are tags. -/
theorem TagStr_boldReplGo :
    ∀ (fuel : Nat) (l : List Char), (∀ ch ∈ l, ch ≠ '<') →
      TagStr (boldReplGo fuel l) := by
  intro fuel
  induction fuel with
  | zero =>
    intro l h
    cases l with
    | nil => exact TagStr.nil
    | cons c cs => exact TagStr_of_noLt h
  | succ fuel ih =>
    intro l h
    cases l with
    | nil => exact TagStr.nil
    | cons c rest =>
      by_cases hc : c = '*'
      · cases rest with
        | nil =>
          simp only [boldReplGo, if_pos hc]
          exact TagStr.chr (by rw [hc]; decide) TagStr.nil
        | cons c2 rest2 =>
          cases rest2 with
          | nil =>
            simp only [boldReplGo, if_pos hc]
            refine TagStr.chr (by rw [hc]; decide) (ih [c2] ?_)
            intro ch hch
            exact h ch (List.mem_cons_of_mem c hch)
          | cons r0 rest3 =>
            by_cases hc2 : c2 = '*'
            · cases hfs : findStars rest3 with
              | some ab =>
                obtain ⟨a, b⟩ := ab
                simp only [boldReplGo, if_pos hc, if_pos hc2, hfs]
                have hdec := findStars_eq hfs
                have hmemc : ∀ ch ∈ r0 :: a, ch ≠ '<' := by
                  intro ch hch
                  apply h
                  rcases List.mem_cons.mp hch with hch | hch
                  · exact hch ▸ (by simp)
                  · have : ch ∈ rest3 := hdec ▸ List.mem_append_left _ hch
                    simp [this]
                have hmemb : ∀ ch ∈ b, ch ≠ '<' := by
                  intro ch hch
                  apply h
                  have : ch ∈ rest3 := by
                    rw [hdec]
                    exact List.mem_append_right _ (by simp [hch])
                  simp [this]
                rw [List.append_assoc, List.append_assoc]
                refine TagStr.tag (by simp [tagsList]) ?_
                refine TagStr_append_left hmemc ?_
                exact TagStr.tag (by simp [tagsList]) (ih b hmemb)
              | none =>
                simp only [boldReplGo, if_pos hc, if_pos hc2, hfs]
                refine TagStr.chr (by rw [hc]; decide) (ih (c2 :: r0 :: rest3) ?_)
                intro ch hch
                exact h ch (List.mem_cons_of_mem c hch)
            · simp only [boldReplGo, if_pos hc, if_neg hc2]
              refine TagStr.chr (by rw [hc]; decide) (ih (c2 :: r0 :: rest3) ?_)
              intro ch hch
              exact h ch (List.mem_cons_of_mem c hch)
      · simp only [boldReplGo, if_neg hc]
        refine TagStr.chr (h c (List.mem_cons_self c rest)) (ih rest ?_)
        intro ch hch
        exact h ch (List.mem_cons_of_mem c hch)

/-- The code replacement copies a backtick-free prefix verbatim, consuming
fuel one character at a time. -/
theorem codeReplGo_append :
    ∀ (t : List Char), (∀ ch ∈ t, ch ≠ backtick) → ∀ (fuel : Nat) (l : List Char),
      codeReplGo (fuel + t.length) (t ++ l) = t ++ codeReplGo fuel l := by
  intro t
  induction t with
  | nil => intro _ fuel l; rfl
  | cons c ts ih =>
    intro h fuel l
    show codeReplGo (fuel + ts.length + 1) (c :: (ts ++ l)) = _
    simp only [codeReplGo, if_neg (h c (List.mem_cons_self c ts))]
    rw [ih (fun ch hch => h ch (List.mem_cons_of_mem c hch)) fuel l]
    rfl

/-- Every tag is nonempty. -/
theorem tags_ne_nil : ∀ t ∈ tagsList, t ≠ [] := by decide

/-- The code replacement of a tag-structured line is tag-structured, given
adequate fuel: match boundaries are backticks, no tag contains a backtick,
so tags survive whole, and the inserted code tags are tags. -/
theorem TagStr_codeReplGo :
    ∀ (fuel : Nat), ∀ m : List Char, m.length ≤ fuel → TagStr m →
      TagStr (codeReplGo fuel m) := by
  intro fuel
  induction fuel using Nat.strong_induction_on with
  | _ fuel ihf =>
    intro m hlen hm
    cases hm with
    | nil =>
      cases fuel with
      | zero => exact TagStr.nil
      | succ fuel => exact TagStr.nil
    | chr hc hl =>
      rename_i c l
      cases fuel with
      | zero => simp at hlen
      | succ fuel =>
        by_cases hcb : c = backtick
        · cases l with
          | nil =>
            simp only [codeReplGo, if_pos hcb]
            exact TagStr.chr (by rw [hcb]; decide) TagStr.nil
          | cons r0 rest2 =>
            cases hft : findTick rest2 with
            | some ab =>
              obtain ⟨a, b⟩ := ab
              simp only [codeReplGo, if_pos hcb, hft]
              have hdec := findTick_eq hft
              have hsplit : r0 :: rest2 = (r0 :: a) ++ backtick :: b := by
                rw [hdec]
                rfl
              obtain ⟨h1, h2⟩ := TagStr_split_tick hl (r0 :: a) b hsplit
              rw [List.append_assoc, List.append_assoc]
              refine TagStr.tag (by simp [tagsList]) ?_
              refine h1 _ ?_
              refine TagStr.tag (by simp [tagsList]) ?_
              refine ihf fuel (Nat.lt_succ_self fuel) b ?_ h2
              have : (r0 :: rest2).length + 1 ≤ fuel + 1 := hlen
              rw [hdec] at this
              simp at this
              omega
            | none =>
              simp only [codeReplGo, if_pos hcb, hft]
              refine TagStr.chr (by rw [hcb]; decide) ?_
              refine ihf fuel (Nat.lt_succ_self fuel) (r0 :: rest2) ?_ hl
              have : (r0 :: rest2).length + 1 ≤ fuel + 1 := hlen
              omega
        · simp only [codeReplGo, if_neg hcb]
          refine TagStr.chr hc ?_
          refine ihf fuel (Nat.lt_succ_self fuel) l ?_ hl
          have : l.length + 1 ≤ fuel + 1 := hlen
          omega
    | tag ht hl =>
      rename_i t l
      have htpos : 0 < t.length :=
        List.length_pos.mpr (tags_ne_nil t ht)
      have hflen : (t ++ l).length ≤ fuel := hlen
      rw [List.length_append] at hflen
      have hfeq : fuel = (fuel - t.length) + t.length := by omega
      rw [hfeq, codeReplGo_append t (fun ch hch he => tags_no_tick t ht (he ▸ hch))]
      refine TagStr.tag ht ?_
      exact ihf (fuel - t.length) (by omega) l (by omega) hl

/-- In a tag-structured string, every occurrence of `<` starts a tag: the
step for one tag whose text is `<` followed by the `<`-free `t2`. -/
theorem TagStr_lt_tag_step (t2 : List Char) (hnt : '<' ∉ t2)
    (hmem : ('<' :: t2) ∈ tagsList) :
    ∀ {l : List Char},
      (∀ u2 v2 : List Char, l = u2 ++ '<' :: v2 →
        ∃ tg ∈ tagsList, isPref tg ('<' :: v2) = true) →
      ∀ u v : List Char, ('<' :: t2) ++ l = u ++ '<' :: v →
        ∃ tg ∈ tagsList, isPref tg ('<' :: v) = true := by
  intro l ih u v h
  cases u with
  | nil =>
    rw [List.nil_append] at h
    rw [List.cons_append] at h
    injection h with h1 h2
    refine ⟨'<' :: t2, hmem, ?_⟩
    rw [isPref_iff]
    exact ⟨l, by rw [List.cons_append, h2]⟩
  | cons b u2 =>
    rw [List.cons_append, List.cons_append] at h
    injection h with hb htl
    obtain ⟨w, hw1, hw2⟩ := split_of_notMem t2 htl hnt
    exact ih w v hw2

/-- In a tag-structured string, every occurrence of `<` begins one of the
four tags. -/
theorem TagStr_lt_tag {m : List Char} (hm : TagStr m) :
    ∀ u v : List Char, m = u ++ '<' :: v →
      ∃ tg ∈ tagsList, isPref tg ('<' :: v) = true := by
  induction hm with
  | nil =>
    intro u v h
    exact absurd h.symm (by simp)
  | chr hc hl ih =>
    intro u v h
    cases u with
    | nil =>
      rw [List.nil_append] at h
      injection h with h1 h2
      exact absurd h1 hc
    | cons b u2 =>
      rw [List.cons_append] at h
      injection h with hb htl
      exact ih u2 v htl
  | tag ht hl ih =>
    intro u v h
    have ht4 := ht
    simp only [tagsList, List.mem_cons, List.not_mem_nil, or_false] at ht4
    rcases ht4 with rfl | rfl | rfl | rfl
    · rw [show strongOpen = '<' :: "strong>".data from by decide] at h ht
      exact TagStr_lt_tag_step "strong>".data (by decide) ht ih u v h
    · rw [show strongClose = '<' :: "/strong>".data from by decide] at h ht
      exact TagStr_lt_tag_step "/strong>".data (by decide) ht ih u v h
    · rw [show codeOpen =
        '<' :: "code class=\"bg-muted px-1.5 py-0.5 rounded text-sm\">".data from by decide] at h ht
      exact TagStr_lt_tag_step
        "code class=\"bg-muted px-1.5 py-0.5 rounded text-sm\">".data (by decide) ht ih u v h
    · rw [show codeClose = '<' :: "/code>".data from by decide] at h ht
      exact TagStr_lt_tag_step "/code>".data (by decide) ht ih u v h

/-- C1: the paragraph pipeline escapes the line before re-inserting the
bold and inline-code tags, so in the string handed to
`dangerouslySetInnerHTML`, every occurrence of the character `<` begins one
of the four fixed tags `<strong>`, `</strong>`,
`<code class="bg-muted px-1.5 py-0.5 rounded text-sm">`, `</code>`; no
other markup from the content reaches the emitted HTML. -/
theorem c1_paragraph_injection_safe (line u v : List Char)
    (h : procPara line = u ++ '<' :: v) :
    isPref strongOpen ('<' :: v) = true ∨ isPref strongClose ('<' :: v) = true ∨
    isPref codeOpen ('<' :: v) = true ∨ isPref codeClose ('<' :: v) = true := by
  have hesc : ∀ ch ∈ escapeHtml line, ch ≠ '<' :=
    fun ch hm he => noLt_escapeHtml line (he ▸ hm)
  have hbold : TagStr (boldRepl (escapeHtml line)) := TagStr_boldReplGo _ _ hesc
  have hcode : TagStr (procPara line) :=
    TagStr_codeReplGo _ _ (Nat.le_refl _) hbold
  obtain ⟨tg, htg, hpref⟩ := TagStr_lt_tag hcode u v h
  simp only [tagsList, List.mem_cons, List.not_mem_nil, or_false] at htg
  rcases htg with rfl | rfl | rfl | rfl
  · exact Or.inl hpref
  · exact Or.inr (Or.inl hpref)
  · exact Or.inr (Or.inr (Or.inl hpref))
  · exact Or.inr (Or.inr (Or.inr hpref))

/-- Witness for C1: the line `**<b>**` is escaped and then bolded; the
single occurrence of `<` in its processed form starts the tag
`<strong>`. -/
theorem c1_paragraph_injection_safe_witness :
    isPref strongOpen ('<' :: "strong>&lt;b&gt;</strong>".data) = true ∨
    isPref strongClose ('<' :: "strong>&lt;b&gt;</strong>".data) = true ∨
    isPref codeOpen ('<' :: "strong>&lt;b&gt;</strong>".data) = true ∨
    isPref codeClose ('<' :: "strong>&lt;b&gt;</strong>".data) = true :=
  c1_paragraph_injection_safe "**<b>**".data [] "strong>&lt;b&gt;</strong>".data
    (by decide)

end Portfolio
